import Mathlib

/-!
Verification of the batch-orchestration core of `s3_restore.py`.

Each Python function the claims touch is shallowly embedded as a Lean
definition of the same name (where Lean allows it).  Remote calls are
modelled as oracle functions from keys to structured results; the two
on-disk logs are lists of appended keys; progress samples are pairs of a
worker id and a rational fraction.
-/

namespace S3Restore

/-- Object keys are opaque strings, compared for equality only. -/
abbrev Key := String

/-- Model of `chunks(lst, n)` (src lines 38-41): successive `n`-sized slices
`lst[i:i+n]` of `lst`.  Python's `range(0, len(lst), n)` needs `n ≥ 1`
(the orchestrator always passes `max(..., 1)`); for `n = 0` we return `[]`
where Python would raise `ValueError`. -/
def chunks {α : Type} (lst : List α) (n : Nat) : List (List α) :=
  match lst, n with
  | [], _ => []
  | _ :: _, 0 => []
  | c :: rest, m + 1 =>
      (c :: rest).take (m + 1) :: chunks ((c :: rest).drop (m + 1)) (m + 1)
termination_by lst.length
decreasing_by
  simp only [List.length_drop, List.length_cons]
  omega

/-- Model of `diff(first, second)` (src lines 44-47): the elements of `first`, in
order, that do not occur in `second` (membership tested against
`set(second)`). -/
def diff (first second : List Key) : List Key :=
  first.filter (fun item => !second.contains item)

theorem chunks_eq_nil_left {α : Type} (n : Nat) : chunks ([] : List α) n = [] := by
  simp [chunks]

theorem chunks_zero {α : Type} (lst : List α) : chunks lst 0 = [] := by
  cases lst <;> simp [chunks]

theorem chunks_cons {α : Type} {lst : List α} {n : Nat} (h1 : lst ≠ []) (h2 : n ≠ 0) :
    chunks lst n = lst.take n :: chunks (lst.drop n) n := by
  match lst, n with
  | [], _ => exact absurd rfl h1
  | _ :: _, 0 => exact absurd rfl h2
  | c :: rest, m + 1 => simp [chunks]

/-- Concatenating the chunks reproduces the input list. -/
theorem chunks_flatten {α : Type} (n : Nat) (hn : n ≠ 0) (lst : List α) :
    (chunks lst n).flatten = lst := by
  by_cases h : lst = []
  · subst h; simp [chunks_eq_nil_left]
  · have h1 : 0 < lst.length := List.length_pos.mpr h
    rw [chunks_cons h hn, List.flatten_cons, chunks_flatten n hn (lst.drop n)]
    exact List.take_append_drop n lst
termination_by lst.length
decreasing_by
  simp only [List.length_drop]
  omega

/-- Every chunk produced with a positive size is non-empty. -/
theorem chunks_mem_ne_nil {α : Type} (n : Nat) (hn : n ≠ 0) (lst : List α) :
    ∀ c ∈ chunks lst n, c ≠ [] := by
  by_cases h : lst = []
  · subst h; simp [chunks_eq_nil_left]
  · have h1 : 0 < lst.length := List.length_pos.mpr h
    rw [chunks_cons h hn]
    intro c hc
    rcases List.mem_cons.mp hc with hc | hc
    · subst hc
      simp only [ne_eq, List.take_eq_nil_iff, not_or]
      exact ⟨hn, h⟩
    · exact chunks_mem_ne_nil n hn (lst.drop n) c hc
termination_by lst.length
decreasing_by
  simp only [List.length_drop]
  omega

/-- A chunked non-empty list yields at least one chunk. -/
theorem chunks_ne_nil {α : Type} {lst : List α} {n : Nat} (h : lst ≠ []) (hn : n ≠ 0) :
    chunks lst n ≠ [] := by
  rw [chunks_cons h hn]
  simp

/-- All chunks except the last have length exactly `n`. -/
theorem chunks_dropLast_length {α : Type} (n : Nat) (hn : n ≠ 0) (lst : List α) :
    ∀ c ∈ (chunks lst n).dropLast, c.length = n := by
  by_cases h : lst = []
  · subst h; simp [chunks_eq_nil_left]
  · have h1 : 0 < lst.length := List.length_pos.mpr h
    rw [chunks_cons h hn]
    by_cases hd : lst.drop n = []
    · rw [hd, chunks_eq_nil_left]
      simp
    · have hrest : chunks (lst.drop n) n ≠ [] := chunks_ne_nil hd hn
      obtain ⟨r, rs, hr⟩ := List.exists_cons_of_ne_nil hrest
      rw [hr]
      intro c hc
      rw [List.dropLast_cons₂] at hc
      rcases List.mem_cons.mp hc with hc | hc
      · subst hc
        have hlen : n < lst.length := by
          by_contra hcon
          push_neg at hcon
          exact hd (List.drop_eq_nil_of_le hcon)
        simp [List.length_take, Nat.min_eq_left (Nat.le_of_lt hlen)]
      · have := chunks_dropLast_length n hn (lst.drop n)
        rw [hr] at this
        exact this c hc
termination_by lst.length
decreasing_by
  simp only [List.length_drop]
  omega

/-- The last chunk is non-empty and no larger than `n`: the remainder
forms a final, possibly shorter chunk. -/
theorem chunks_getLast_length {α : Type} (n : Nat) (hn : n ≠ 0) (lst : List α) :
    ∀ c, (chunks lst n).getLast? = some c → 1 ≤ c.length ∧ c.length ≤ n := by
  by_cases h : lst = []
  · subst h; simp [chunks_eq_nil_left]
  · have h1 : 0 < lst.length := List.length_pos.mpr h
    rw [chunks_cons h hn]
    by_cases hd : lst.drop n = []
    · rw [hd, chunks_eq_nil_left]
      intro c hc
      simp only [List.getLast?_singleton, Option.some.injEq] at hc
      subst hc
      constructor
      · simp only [List.length_take]
        omega
      · simp [List.length_take]
    · have hrest : chunks (lst.drop n) n ≠ [] := chunks_ne_nil hd hn
      obtain ⟨r, rs, hr⟩ := List.exists_cons_of_ne_nil hrest
      intro c hc
      rw [hr, List.getLast?_cons_cons] at hc
      have := chunks_getLast_length n hn (lst.drop n) c
      rw [hr] at this
      exact this hc
termination_by lst.length
decreasing_by
  simp only [List.length_drop]
  omega

/-- The number of chunks is the ceiling `⌈len/n⌉ = (len + n - 1) / n`. -/
theorem chunks_length {α : Type} (n : Nat) (hn : n ≠ 0) (lst : List α) (h : lst ≠ []) :
    (chunks lst n).length = (lst.length + n - 1) / n := by
  have h1 : 0 < lst.length := List.length_pos.mpr h
  rw [chunks_cons h hn]
  by_cases hd : lst.drop n = []
  · rw [hd, chunks_eq_nil_left]
    have hle : lst.length ≤ n := by
      by_contra hcon
      push_neg at hcon
      have : (lst.drop n).length = lst.length - n := List.length_drop n lst
      rw [hd] at this
      simp at this
      omega
    have hone : (lst.length + n - 1) / n = 1 :=
      Nat.div_eq_of_lt_le (by omega) (by omega)
    rw [List.length_cons, List.length_nil, hone]
  · have hlt : n < lst.length := by
      by_contra hcon
      push_neg at hcon
      exact hd (List.drop_eq_nil_of_le hcon)
    have hih := chunks_length n hn (lst.drop n) hd
    rw [List.length_cons, hih, List.length_drop]
    have : lst.length - n + n - 1 = lst.length - 1 := by omega
    rw [this]
    have h2 : (lst.length - 1) / n + 1 = (lst.length - 1 + n) / n :=
      (Nat.add_div_right (lst.length - 1) (Nat.pos_of_ne_zero hn)).symm
    rw [h2]
    congr 1
    omega
termination_by lst.length
decreasing_by
  simp only [List.length_drop]
  omega

/-! ### Worker model: `request_retrieval` (src lines 56-97) -/

/-- Structured outcome of one `restore_object` remote call: either a
response with an HTTP status code, or a `ClientError` with an error code. -/
inductive RestoreResult where
  | ok (httpStatus : Nat)
  | err (code : String)
deriving DecidableEq

/-- State threaded through a restore-request worker: the two append-only
logs and the number of client (re)acquisitions so far. -/
structure WorkerState where
  progressLog : List Key
  availabilityLog : List Key
  clientGen : Nat
deriving DecidableEq

/-- Effect of one loop body of `request_retrieval` on the logs/client
(src lines 65-93): 200 → availability log, 202 → progress log,
`NoSuchKey` → nothing, `RestoreAlreadyInProgress` → progress log,
`ExpiredToken` → refresh client, anything else → reported only. -/
def requestStep (st : WorkerState) (f : Key) (r : RestoreResult) : WorkerState :=
  match r with
  | .ok s =>
      if s = 200 then { st with availabilityLog := st.availabilityLog ++ [f] }
      else if s = 202 then { st with progressLog := st.progressLog ++ [f] }
      else st
  | .err c =>
      if c = "NoSuchKey" then st
      else if c = "RestoreAlreadyInProgress" then
        { st with progressLog := st.progressLog ++ [f] }
      else if c = "ExpiredToken" then { st with clientGen := st.clientGen + 1 }
      else st

/-- The per-key loop of `request_retrieval`: each key is classified once,
then `counter` is incremented and a progress sample
`(chunk_index, counter / total)` is emitted (src lines 63-97). -/
def requestLoop (resp : Key → RestoreResult) (chunkIndex total : Nat) :
    List Key → Nat → WorkerState → WorkerState × List (Nat × ℚ)
  | [], _, st => (st, [])
  | f :: rest, counter, st =>
      let st1 := requestStep st f (resp f)
      let result := requestLoop resp chunkIndex total rest (counter + 1) st1
      (result.1, (chunkIndex, ((counter : ℚ) + 1) / (total : ℚ)) :: result.2)

/-- Model of `request_retrieval(...)` over its `files` chunk, given the remote
call's outcomes as an oracle `resp`. -/
def request_retrieval (resp : Key → RestoreResult) (files : List Key)
    (chunkIndex : Nat) (st : WorkerState) : WorkerState × List (Nat × ℚ) :=
  requestLoop resp chunkIndex files.length files 0 st

/-! ### Worker model: `check_files_availability` (src lines 100-124) -/

/-- Structured outcome of one `head_object` remote call: a response whose
`x-amz-restore` header may be absent, or a `ClientError`. -/
inductive HeadResult where
  | ok (restoreHeader : Option (List Char))
  | err (code : String)

/-- State threaded through an availability-check worker. -/
structure CheckState where
  availabilityLog : List Key
  clientGen : Nat
deriving DecidableEq

/-- Predicate `hasPrefixSeq pat s`: `pat` is an initial segment of `s`. -/
def hasPrefixSeq : List Char → List Char → Bool
  | [], _ => true
  | _ :: _, [] => false
  | a :: as, b :: bs => a = b && hasPrefixSeq as bs

/-- Predicate `containsSeq pat s`: `pat` occurs contiguously inside `s` (model of
Python's `in` on strings). -/
def containsSeq (pat : List Char) : List Char → Bool
  | [] => hasPrefixSeq pat []
  | s@(_ :: rest) => hasPrefixSeq pat s || containsSeq pat rest

/-- The header fragment `ongoing-request="false"` signalling a finished
restore (src line 110). -/
def ongoingFalse : List Char := "ongoing-request=\"false\"".toList

/-- Effect of one loop body of `check_files_availability` on the log/client
(src lines 106-120). -/
def checkStep (st : CheckState) (f : Key) (r : HeadResult) : CheckState :=
  match r with
  | .ok none => st
  | .ok (some hdr) =>
      if containsSeq ongoingFalse hdr then
        { st with availabilityLog := st.availabilityLog ++ [f] }
      else st
  | .err c =>
      if c = "NoSuchKey" then st
      else if c = "ExpiredToken" then { st with clientGen := st.clientGen + 1 }
      else st

/-- The per-key loop of `check_files_availability` (src lines 104-124). -/
def checkLoop (resp : Key → HeadResult) (chunkIndex total : Nat) :
    List Key → Nat → CheckState → CheckState × List (Nat × ℚ)
  | [], _, st => (st, [])
  | f :: rest, counter, st =>
      let st1 := checkStep st f (resp f)
      let result := checkLoop resp chunkIndex total rest (counter + 1) st1
      (result.1, (chunkIndex, ((counter : ℚ) + 1) / (total : ℚ)) :: result.2)

/-- Model of `check_files_availability(...)` over its `files` chunk. -/
def check_files_availability (resp : Key → HeadResult) (files : List Key)
    (chunkIndex : Nat) (st : CheckState) : CheckState × List (Nat × ℚ) :=
  checkLoop resp chunkIndex files.length files 0 st

/-! ### Progress aggregator: `print_percent_queue` (src lines 127-142) -/

/-- Python-dict update: replace the value in place if the id is present,
else append the pair at the end (insertion order preserved). -/
def dictInsert (d : List (Nat × ℚ)) (k : Nat) (v : ℚ) : List (Nat × ℚ) :=
  if d.any (fun p => p.1 = k) then
    d.map (fun p => if p.1 = k then (k, v) else p)
  else d ++ [(k, v)]

/-- Lookup in the insertion-ordered dict model. -/
def dictLookup (d : List (Nat × ℚ)) (k : Nat) : Option ℚ :=
  (d.find? (fun p => p.1 = k)).map Prod.snd

/-- The drain phase of `print_percent_queue` (src lines 128-130): pull the
queued `(worker id, fraction)` samples in order into `percent_dict`,
last write per id winning. -/
def drainQueue (d : List (Nat × ℚ)) (q : List (Nat × ℚ)) : List (Nat × ℚ) :=
  q.foldl (fun acc p => dictInsert acc p.1 p.2) d

/-- The render phase of `print_percent_queue` (src lines 132-142): sum the
per-worker percentages and divide by the worker count; an empty mapping
renders nothing (`none`). -/
def renderTotal (d : List (Nat × ℚ)) : Option ℚ :=
  if 0 < d.length then some ((d.map (fun p => p.2 * 100)).sum / (d.length : ℚ))
  else none

/-! ### Orchestrators (src lines 179-239 and 242-297), control-flow model -/

/-- Outcome of an orchestrator's pre-spawn phase: the early "nothing to
do" exit, or proceeding (estimate, confirmation prompt, then spawning one
thread per chunk of size `splitBy`) with the given remaining list and
thread count. -/
inductive RunAction where
  | earlyExit (message : String)
  | proceed (remaining : List Key) (threadCount : Nat) (splitBy : Nat)
deriving DecidableEq

def RunAction.isEarlyExit : RunAction → Bool
  | .earlyExit _ => true
  | .proceed _ _ _ => false

def RunAction.planThreads : RunAction → Nat
  | .earlyExit _ => 0
  | .proceed _ tc _ => tc

def RunAction.planSplitBy : RunAction → Nat
  | .earlyExit _ => 0
  | .proceed _ _ s => s

/-- Remaining work in restore-request mode (src lines 194-203): diff the
master list against the progress log, then the availability log, each
only when that log is non-empty. -/
def requestRemaining (lines progressLog availabilityLog : List Key) : List Key :=
  let l1 := if 0 < progressLog.length then diff lines progressLog else lines
  if 0 < availabilityLog.length then diff l1 availabilityLog else l1

/-- Pre-spawn control flow of `main_request_objects_restore`
(src lines 194-225): empty remaining → early exit; otherwise clamp the
thread count to the remaining length and compute the chunk size
`max(len // threads, 1)`. -/
def main_request_objects_restore (lines progressLog availabilityLog : List Key)
    (threadCount : Nat) : RunAction :=
  let remaining := requestRemaining lines progressLog availabilityLog
  if remaining.length = 0 then
    .earlyExit "All objects already requested, nothing to do"
  else
    let tc := if remaining.length < threadCount then remaining.length else threadCount
    let splitBy := max (remaining.length / tc) 1
    .proceed remaining tc splitBy

/-- Remaining work in availability-check mode (src lines 261-264): diff
the file list against the availability log only when it is non-empty. -/
def checkRemaining (fileList availabilityLog : List Key) : List Key :=
  if 0 < availabilityLog.length then diff fileList availabilityLog else fileList

/-- Pre-spawn control flow of `main_check_restore_status`
(src lines 256-279): no emptiness check and no thread-count clamp; the
chunk size is `max(len // threads, 1)` with the configured thread count. -/
def main_check_restore_status (fileList availabilityLog : List Key)
    (threadCount : Nat) : RunAction :=
  let remaining := checkRemaining fileList availabilityLog
  let splitBy := max (remaining.length / threadCount) 1
  .proceed remaining threadCount splitBy

/-! ### Log filenames (src lines 181-182 and 244) and a file-store model -/

def requestAvailabilityLogfile (bucket : String) : String :=
  bucket ++ ".available"

def checkAvailabilityLogfile (bucket : String) : String :=
  "bucket_" ++ bucket ++ ".available"

/-- On-disk state: each filename holds a list of appended entries. -/
abbrev FileStore := String → List String

/-- Appending one line to one file. -/
def appendEntry (store : FileStore) (fname : String) (entry : String) : FileStore :=
  fun f => if f = fname then store f ++ [entry] else store f

/-! ### File round-trip model (src lines 28-35 and 174-176)

File contents are modelled as `List Char`.  Python's line iteration
yields each line with its trailing newline kept (no trailing empty
line); `read_file` then strips every newline character from each line. -/

/-- Python file-line iteration: split after each newline, keeping it;
`acc` holds the current line, reversed. -/
def pythonLinesAux : List Char → List Char → List (List Char)
  | acc, [] => if acc.isEmpty then [] else [acc.reverse]
  | acc, c :: rest =>
      if c = '\n' then (acc.reverse ++ [c]) :: pythonLinesAux [] rest
      else pythonLinesAux (c :: acc) rest

def pythonLines (content : List Char) : List (List Char) :=
  pythonLinesAux [] content

/-- Model of `l.replace('\n', '')` on one line. -/
def removeNewlines (l : List Char) : List Char :=
  l.filter (fun c => c ≠ '\n')

/-- Model of `read_file(fname)` (src lines 28-35), as a function of the file's
contents. -/
def read_file (content : List Char) : List (List Char) :=
  (pythonLines content).map removeNewlines

/-- The list-generation output loop (src lines 174-176): write each key
followed by a newline. -/
def writeLines (keys : List (List Char)) : List Char :=
  (keys.map (fun k => k ++ ['\n'])).flatten

/-! ### Claim theorems -/

/-- C1 (counterexample): with 10 keys and worker count 3 the chunk size is
`max(10 / 3, 1) = 3`, but slicing yields 4 chunks `[3, 3, 3, 1]` — more
than N — and the last chunk is the short remainder, not an enlarged chunk
absorbing it. -/
theorem c1_chunks_counterexample :
    max ((["k0", "k1", "k2", "k3", "k4", "k5", "k6", "k7", "k8", "k9"] : List Key).length / 3) 1 = 3 ∧
    chunks (["k0", "k1", "k2", "k3", "k4", "k5", "k6", "k7", "k8", "k9"] : List Key) 3 =
      [["k0", "k1", "k2"], ["k3", "k4", "k5"], ["k6", "k7", "k8"], ["k9"]] ∧
    ¬ ((chunks (["k0", "k1", "k2", "k3", "k4", "k5", "k6", "k7", "k8", "k9"] : List Key) 3).length ≤ 3) := by
  refine ⟨rfl, ?_, ?_⟩
  · simp [chunks]
  · simp [chunks]

/-- C1 (amended): for non-empty L and 1 ≤ N ≤ len L, with chunk size
`s = max(len L / N, 1)`, the chunks concatenate back to L, every chunk but
the last has size exactly s, the last chunk is non-empty of size at most s
(the remainder forms an extra, shorter final chunk instead of being
absorbed), and the chunk count is `⌈len L / s⌉`, which can exceed N. -/
theorem c1_chunks_partition (L : List Key) (N : Nat) (hL : L ≠ [])
    (hN1 : 1 ≤ N) (hNL : N ≤ L.length) :
    (chunks L (max (L.length / N) 1)).flatten = L ∧
    (∀ c ∈ (chunks L (max (L.length / N) 1)).dropLast,
        c.length = max (L.length / N) 1) ∧
    (∀ c, (chunks L (max (L.length / N) 1)).getLast? = some c →
        1 ≤ c.length ∧ c.length ≤ max (L.length / N) 1) ∧
    (chunks L (max (L.length / N) 1)).length =
      (L.length + max (L.length / N) 1 - 1) / max (L.length / N) 1 := by
  have hs : max (L.length / N) 1 ≠ 0 := by omega
  exact ⟨chunks_flatten _ hs L, chunks_dropLast_length _ hs L,
    chunks_getLast_length _ hs L, chunks_length _ hs L hL⟩

/-- Witness for C1's amended theorem at L of 10 keys and N = 3. -/
theorem c1_chunks_partition_witness :
    (chunks (["k0", "k1", "k2", "k3", "k4", "k5", "k6", "k7", "k8", "k9"] : List Key)
        (max ((["k0", "k1", "k2", "k3", "k4", "k5", "k6", "k7", "k8", "k9"] : List Key).length / 3) 1)).flatten =
      (["k0", "k1", "k2", "k3", "k4", "k5", "k6", "k7", "k8", "k9"] : List Key) ∧
    (∀ c ∈ (chunks (["k0", "k1", "k2", "k3", "k4", "k5", "k6", "k7", "k8", "k9"] : List Key)
        (max ((["k0", "k1", "k2", "k3", "k4", "k5", "k6", "k7", "k8", "k9"] : List Key).length / 3) 1)).dropLast,
        c.length = max ((["k0", "k1", "k2", "k3", "k4", "k5", "k6", "k7", "k8", "k9"] : List Key).length / 3) 1) ∧
    (∀ c, (chunks (["k0", "k1", "k2", "k3", "k4", "k5", "k6", "k7", "k8", "k9"] : List Key)
        (max ((["k0", "k1", "k2", "k3", "k4", "k5", "k6", "k7", "k8", "k9"] : List Key).length / 3) 1)).getLast? = some c →
        1 ≤ c.length ∧ c.length ≤ max ((["k0", "k1", "k2", "k3", "k4", "k5", "k6", "k7", "k8", "k9"] : List Key).length / 3) 1) ∧
    (chunks (["k0", "k1", "k2", "k3", "k4", "k5", "k6", "k7", "k8", "k9"] : List Key)
        (max ((["k0", "k1", "k2", "k3", "k4", "k5", "k6", "k7", "k8", "k9"] : List Key).length / 3) 1)).length =
      ((["k0", "k1", "k2", "k3", "k4", "k5", "k6", "k7", "k8", "k9"] : List Key).length +
        max ((["k0", "k1", "k2", "k3", "k4", "k5", "k6", "k7", "k8", "k9"] : List Key).length / 3) 1 - 1) /
        max ((["k0", "k1", "k2", "k3", "k4", "k5", "k6", "k7", "k8", "k9"] : List Key).length / 3) 1 :=
  c1_chunks_partition ["k0", "k1", "k2", "k3", "k4", "k5", "k6", "k7", "k8", "k9"] 3
    (by decide) (by decide) (by decide)

/-- C2: `diff(L, E)` keeps exactly the elements of L not occurring in E,
in L's original order (it is a sublist of L and preserves per-element
multiplicity); `diff(L, []) = L` and `diff(L, L) = []`. -/
theorem c2_diff_spec (L E : List Key) :
    (∀ x, x ∈ diff L E ↔ x ∈ L ∧ x ∉ E) ∧
    List.Sublist (diff L E) L ∧
    (∀ x, (diff L E).count x = if x ∈ E then 0 else L.count x) ∧
    diff L [] = L ∧ diff L L = [] := by
  refine ⟨?_, List.filter_sublist L, ?_, ?_, ?_⟩
  · intro x
    simp [diff]
  · intro x
    by_cases hx : x ∈ E
    · simp only [hx, if_true]
      refine List.count_eq_zero.mpr ?_
      simp [diff, hx]
    · simp only [hx, if_false]
      refine List.count_filter ?_
      simp [hx]
  · simp [diff]
  · refine List.filter_eq_nil_iff.mpr ?_
    intro a ha
    simp [ha]

/-- C3 (counterexample): with master list `["a"]` fully covered by the
availability log, the check-status orchestrator computes an empty
remaining list yet does not early-exit — it proceeds to the estimate and
confirmation prompt (spawning zero workers only because chunking an empty
list yields no chunks). -/
theorem c3_check_mode_counterexample :
    checkRemaining ["a"] ["a"] = [] ∧
    (main_check_restore_status ["a"] ["a"] 1).isEarlyExit = false ∧
    main_check_restore_status ["a"] ["a"] 1 = .proceed [] 1 1 ∧
    chunks (checkRemaining ["a"] ["a"]) 1 = [] := by
  refine ⟨by decide, by decide, by decide, ?_⟩
  have h : checkRemaining ["a"] ["a"] = [] := by decide
  rw [h, chunks_eq_nil_left]

/-- C3 (amended): only the restore-request orchestrator early-exits with
the "nothing to do" report, exactly when its remaining list is empty (the
exit precedes estimation, confirmation and spawning); the
availability-check orchestrator has no such check and never early-exits. -/
theorem c3_early_exit :
    (∀ lines progressLog availabilityLog threadCount,
        (main_request_objects_restore lines progressLog availabilityLog
            threadCount).isEarlyExit = true ↔
          (requestRemaining lines progressLog availabilityLog).length = 0) ∧
    (∀ fileList availabilityLog threadCount,
        (main_check_restore_status fileList availabilityLog
            threadCount).isEarlyExit = false) := by
  constructor
  · intro lines prog avail tc
    by_cases h : (requestRemaining lines prog avail).length = 0 <;>
      simp [main_request_objects_restore, h, RunAction.isEarlyExit]
  · intro fl avail tc
    rfl

/-- C4 (counterexample): the check-status orchestrator does not clamp the
thread count: with one remaining key and 4 configured threads it proceeds
with thread count 4, not `min(4, 1) = 1`. -/
theorem c4_no_clamp_counterexample :
    main_check_restore_status ["a"] [] 4 = .proceed ["a"] 4 1 ∧
    (main_check_restore_status ["a"] [] 4).planThreads ≠
      min (checkRemaining ["a"] []).length 4 := by
  decide

/-- The value `max(L / tc, 1)` is unchanged by first clamping `tc` to `L`: the chunk
size coincides with the clamped formula even where no clamping happens. -/
theorem splitBy_clamp (L tc : Nat) (htc : 1 ≤ tc) :
    max (L / tc) 1 = max (L / min L tc) 1 := by
  rcases Nat.le_total tc L with h | h
  · rw [Nat.min_eq_right h]
  · rcases Nat.eq_zero_or_pos L with hL | hL
    · subst hL
      simp
    · rw [Nat.min_eq_left h]
      rcases Nat.lt_or_ge L tc with hlt | hge
      · rw [Nat.div_eq_of_lt hlt, Nat.div_self hL]
        omega
      · have heq : tc = L := Nat.le_antisymm hge h
        rw [heq]

/-- Witness for `splitBy_clamp` at L = 2, tc = 5. -/
theorem splitBy_clamp_witness : max (2 / 5) 1 = max (2 / min 2 5) 1 :=
  splitBy_clamp 2 5 (by decide)

/-- C4 (amended): the restore-request orchestrator clamps the thread
count to `min(len remaining, configured)` before computing the chunk
size; the check-status orchestrator leaves the configured thread count
unclamped, though its chunk size coincides with the clamped formula since
`max(L / tc, 1) = max(L / min(L, tc), 1)`. -/
theorem c4_thread_clamp :
    (∀ lines progressLog availabilityLog threadCount, 1 ≤ threadCount →
        requestRemaining lines progressLog availabilityLog ≠ [] →
        main_request_objects_restore lines progressLog availabilityLog threadCount =
          .proceed (requestRemaining lines progressLog availabilityLog)
            (min (requestRemaining lines progressLog availabilityLog).length threadCount)
            (max ((requestRemaining lines progressLog availabilityLog).length /
              min (requestRemaining lines progressLog availabilityLog).length threadCount) 1)) ∧
    (∀ fileList availabilityLog threadCount, 1 ≤ threadCount →
        main_check_restore_status fileList availabilityLog threadCount =
          .proceed (checkRemaining fileList availabilityLog) threadCount
            (max ((checkRemaining fileList availabilityLog).length /
              min (checkRemaining fileList availabilityLog).length threadCount) 1)) := by
  constructor
  · intro lines prog avail tc htc hne
    have hlen : (requestRemaining lines prog avail).length ≠ 0 := by
      simpa [List.length_eq_zero] using hne
    have hmin : (if (requestRemaining lines prog avail).length < tc then
        (requestRemaining lines prog avail).length else tc) =
        min (requestRemaining lines prog avail).length tc := by
      rcases Nat.lt_or_ge (requestRemaining lines prog avail).length tc with h | h
      · rw [if_pos h, Nat.min_eq_left (Nat.le_of_lt h)]
      · rw [if_neg (Nat.not_lt.mpr h), Nat.min_eq_right h]
    simp only [main_request_objects_restore, hlen, if_false, hmin]
  · intro fl avail tc htc
    simp only [main_check_restore_status]
    rw [splitBy_clamp _ tc htc]

/-- Witness for C4's amended theorem: two keys on one thread in request
mode; one key on four threads in check mode. -/
theorem c4_thread_clamp_witness :
    main_request_objects_restore ["a", "b"] [] [] 1 =
      .proceed (requestRemaining ["a", "b"] [] [])
        (min (requestRemaining ["a", "b"] [] []).length 1)
        (max ((requestRemaining ["a", "b"] [] []).length /
          min (requestRemaining ["a", "b"] [] []).length 1) 1) ∧
    main_check_restore_status ["a"] [] 4 =
      .proceed (checkRemaining ["a"] []) 4
        (max ((checkRemaining ["a"] []).length /
          min (checkRemaining ["a"] []).length 4) 1) :=
  ⟨c4_thread_clamp.1 ["a", "b"] [] [] 1 (by decide) (by decide),
   c4_thread_clamp.2 ["a"] [] 4 (by decide)⟩

/-! ### Per-key classification of the restore-request worker -/

theorem requestStep_availabilityLog (st : WorkerState) (f : Key) (r : RestoreResult) :
    (requestStep st f r).availabilityLog =
      st.availabilityLog ++ (if r = .ok 200 then [f] else []) := by
  cases r with
  | ok s =>
    by_cases h : s = 200
    · simp [requestStep, h]
    · by_cases h2 : s = 202 <;> simp [requestStep, h, h2]
  | err c =>
    simp only [requestStep]
    split_ifs <;> first | contradiction | simp

theorem requestStep_progressLog (st : WorkerState) (f : Key) (r : RestoreResult) :
    (requestStep st f r).progressLog =
      st.progressLog ++
        (if r = .ok 202 ∨ r = .err "RestoreAlreadyInProgress" then [f] else []) := by
  cases r with
  | ok s =>
    by_cases h : s = 200
    · simp [requestStep, h]
    · by_cases h2 : s = 202 <;> simp [requestStep, h, h2]
  | err c =>
    by_cases h1 : c = "NoSuchKey"
    · subst h1; simp [requestStep]
    · by_cases h2 : c = "RestoreAlreadyInProgress"
      · subst h2; simp [requestStep, h1]
      · by_cases h3 : c = "ExpiredToken"
        · subst h3; simp [requestStep, h1, h2]
        · simp [requestStep, h1, h2, h3]

theorem requestStep_clientGen (st : WorkerState) (f : Key) (r : RestoreResult) :
    (requestStep st f r).clientGen =
      st.clientGen + (if r = .err "ExpiredToken" then 1 else 0) := by
  cases r with
  | ok s =>
    by_cases h : s = 200
    · simp [requestStep, h]
    · by_cases h2 : s = 202 <;> simp [requestStep, h, h2]
  | err c =>
    by_cases h1 : c = "NoSuchKey"
    · subst h1; simp [requestStep]
    · by_cases h2 : c = "RestoreAlreadyInProgress"
      · subst h2; simp [requestStep, h1]
      · by_cases h3 : c = "ExpiredToken"
        · subst h3; simp [requestStep, h1, h2]
        · simp [requestStep, h1, h2, h3]

theorem requestLoop_availabilityLog (resp : Key → RestoreResult) (ci total : Nat) :
    ∀ (files : List Key) (counter : Nat) (st : WorkerState),
      (requestLoop resp ci total files counter st).1.availabilityLog =
        st.availabilityLog ++
          files.filter (fun f => decide (resp f = .ok 200)) := by
  intro files
  induction files with
  | nil => intro counter st; simp [requestLoop]
  | cons f rest ih =>
    intro counter st
    simp only [requestLoop, List.filter_cons]
    rw [ih (counter + 1) (requestStep st f (resp f))]
    rw [requestStep_availabilityLog]
    by_cases h : resp f = .ok 200 <;> simp [h]

theorem requestLoop_progressLog (resp : Key → RestoreResult) (ci total : Nat) :
    ∀ (files : List Key) (counter : Nat) (st : WorkerState),
      (requestLoop resp ci total files counter st).1.progressLog =
        st.progressLog ++
          files.filter
            (fun f => decide (resp f = .ok 202 ∨ resp f = .err "RestoreAlreadyInProgress")) := by
  intro files
  induction files with
  | nil => intro counter st; simp [requestLoop]
  | cons f rest ih =>
    intro counter st
    simp only [requestLoop, List.filter_cons]
    rw [ih (counter + 1) (requestStep st f (resp f))]
    rw [requestStep_progressLog]
    by_cases h : resp f = .ok 202 ∨ resp f = .err "RestoreAlreadyInProgress" <;> simp [h]

theorem requestLoop_clientGen (resp : Key → RestoreResult) (ci total : Nat) :
    ∀ (files : List Key) (counter : Nat) (st : WorkerState),
      (requestLoop resp ci total files counter st).1.clientGen =
        st.clientGen +
          (files.filter (fun f => decide (resp f = .err "ExpiredToken"))).length := by
  intro files
  induction files with
  | nil => intro counter st; simp [requestLoop]
  | cons f rest ih =>
    intro counter st
    simp only [requestLoop, List.filter_cons]
    rw [ih (counter + 1) (requestStep st f (resp f))]
    rw [requestStep_clientGen]
    by_cases h : resp f = .err "ExpiredToken" <;> simp [h] <;> omega

theorem requestLoop_samples (resp : Key → RestoreResult) (ci total : Nat) :
    ∀ (files : List Key) (counter : Nat) (st : WorkerState),
      (requestLoop resp ci total files counter st).2 =
        (List.range files.length).map
          (fun i => (ci, ((counter + i + 1 : Nat) : ℚ) / (total : ℚ))) := by
  intro files
  induction files with
  | nil => intro counter st; simp [requestLoop]
  | cons f rest ih =>
    intro counter st
    simp only [requestLoop, List.length_cons]
    rw [ih (counter + 1) (requestStep st f (resp f))]
    rw [List.range_succ_eq_map]
    simp only [List.map_cons, List.map_map]
    refine congrArg₂ List.cons ?_ (List.map_congr_left fun i hi => ?_)
    · have h0 : counter + 0 + 1 = counter + 1 := by omega
      rw [h0]
      push_cast
      ring_nf
    · have h1 : counter + 1 + i + 1 = counter + (i + 1) + 1 := by omega
      simp only [Function.comp_apply, Nat.succ_eq_add_one, h1]

/-- C5: the restore-request worker classifies every key's outcome exactly
as specified: HTTP 200 keys land in the availability log, HTTP 202 and
`RestoreAlreadyInProgress` keys in the requested (progress) log,
`ExpiredToken` refreshes the client in place without retrying the key,
`NoSuchKey` and other errors write nothing, and every key of the chunk is
processed (one sample per key). -/
theorem c5_request_classification (resp : Key → RestoreResult) (files : List Key)
    (ci : Nat) (st : WorkerState) :
    (request_retrieval resp files ci st).1.availabilityLog =
      st.availabilityLog ++ files.filter (fun f => decide (resp f = .ok 200)) ∧
    (request_retrieval resp files ci st).1.progressLog =
      st.progressLog ++
        files.filter
          (fun f => decide (resp f = .ok 202 ∨ resp f = .err "RestoreAlreadyInProgress")) ∧
    (request_retrieval resp files ci st).1.clientGen =
      st.clientGen +
        (files.filter (fun f => decide (resp f = .err "ExpiredToken"))).length ∧
    (request_retrieval resp files ci st).2.length = files.length := by
  refine ⟨requestLoop_availabilityLog resp ci files.length files 0 st,
    requestLoop_progressLog resp ci files.length files 0 st,
    requestLoop_clientGen resp ci files.length files 0 st, ?_⟩
  rw [request_retrieval, requestLoop_samples]
  simp

theorem checkLoop_samples (resp : Key → HeadResult) (ci total : Nat) :
    ∀ (files : List Key) (counter : Nat) (st : CheckState),
      (checkLoop resp ci total files counter st).2 =
        (List.range files.length).map
          (fun i => (ci, ((counter + i + 1 : Nat) : ℚ) / (total : ℚ))) := by
  intro files
  induction files with
  | nil => intro counter st; simp [checkLoop]
  | cons f rest ih =>
    intro counter st
    simp only [checkLoop, List.length_cons]
    rw [ih (counter + 1) (checkStep st f (resp f))]
    rw [List.range_succ_eq_map]
    simp only [List.map_cons, List.map_map]
    refine congrArg₂ List.cons ?_ (List.map_congr_left fun i hi => ?_)
    · have h0 : counter + 0 + 1 = counter + 1 := by omega
      rw [h0]
      push_cast
      ring_nf
    · have h1 : counter + 1 + i + 1 = counter + (i + 1) + 1 := by omega
      simp only [Function.comp_apply, Nat.succ_eq_add_one, h1]

/-- C6: a worker over a non-empty chunk emits one sample per key with
fraction `(keys processed) / (chunk size)`: the i-th sample is
`(chunk_index, (i+1)/len)`, fractions are non-decreasing and lie in
[0, 1], the final sample is exactly 1, and the availability-check worker
emits the same sample sequence as the restore-request worker. -/
theorem c6_progress_monotone (resp : Key → RestoreResult) (respHead : Key → HeadResult)
    (files : List Key) (ci : Nat) (st : WorkerState) (stc : CheckState)
    (hne : files ≠ []) :
    (request_retrieval resp files ci st).2.length = files.length ∧
    (∀ i, i < files.length →
      (request_retrieval resp files ci st).2[i]? =
        some (ci, ((i + 1 : Nat) : ℚ) / (files.length : ℚ))) ∧
    (∀ (i j : Nat) (fi fj : Nat × ℚ), i ≤ j →
      (request_retrieval resp files ci st).2[i]? = some fi →
      (request_retrieval resp files ci st).2[j]? = some fj → fi.2 ≤ fj.2) ∧
    (∀ s ∈ (request_retrieval resp files ci st).2, 0 ≤ s.2 ∧ s.2 ≤ 1) ∧
    (request_retrieval resp files ci st).2.getLast? = some (ci, 1) ∧
    (check_files_availability respHead files ci stc).2 =
      (request_retrieval resp files ci st).2 := by
  have hn : 0 < files.length := List.length_pos.mpr hne
  have hnq : (0 : ℚ) < (files.length : ℚ) := by exact_mod_cast hn
  have hS : (request_retrieval resp files ci st).2 =
      (List.range files.length).map
        (fun i => (ci, ((i + 1 : Nat) : ℚ) / (files.length : ℚ))) := by
    rw [request_retrieval, requestLoop_samples]
    simp
  have hgetElem : ∀ i, i < files.length →
      (request_retrieval resp files ci st).2[i]? =
        some (ci, ((i + 1 : Nat) : ℚ) / (files.length : ℚ)) := by
    intro i hi
    rw [hS, List.getElem?_map, List.getElem?_range hi]
    rfl
  have hlen : (request_retrieval resp files ci st).2.length = files.length := by
    rw [hS]
    simp
  refine ⟨hlen, hgetElem, ?_, ?_, ?_, ?_⟩
  · intro i j fi fj hij hfi hfj
    have hj : j < files.length := by
      by_contra hcon
      push_neg at hcon
      have : (request_retrieval resp files ci st).2[j]? = none :=
        List.getElem?_eq_none (le_trans (le_of_eq hlen) hcon)
      rw [this] at hfj
      exact Option.noConfusion hfj
    have hi : i < files.length := lt_of_le_of_lt hij hj
    have hfi2 := hgetElem i hi
    have hfj2 := hgetElem j hj
    rw [hfi2] at hfi
    rw [hfj2] at hfj
    have hfi3 := Option.some.inj hfi
    have hfj3 := Option.some.inj hfj
    rw [← hfi3, ← hfj3]
    simp only
    gcongr
  · intro s hs
    rw [hS] at hs
    obtain ⟨i, hi, rfl⟩ := List.mem_map.mp hs
    have hilen : i < files.length := List.mem_range.mp hi
    constructor
    · positivity
    · rw [div_le_one hnq]
      exact_mod_cast hilen
  · rw [hS]
    obtain ⟨m, hm⟩ : ∃ m, files.length = m + 1 := ⟨files.length - 1, by omega⟩
    rw [hm, List.range_succ, List.map_append, List.map_cons, List.map_nil,
      List.getLast?_concat]
    have hne2 : ((m + 1 : Nat) : ℚ) ≠ 0 := Nat.cast_ne_zero.mpr (by omega)
    rw [div_self hne2]
  · rw [check_files_availability, checkLoop_samples, request_retrieval, requestLoop_samples]

/-- Witness for C6 at the one-key chunk `["a"]` (with failing remote
calls, which still emit samples). -/
theorem c6_progress_monotone_witness :
    (request_retrieval (fun _ => RestoreResult.err "E") ["a"] 0
        ⟨[], [], 0⟩).2.getLast? = some (0, 1) :=
  (c6_progress_monotone (fun _ => RestoreResult.err "E") (fun _ => HeadResult.err "E")
    ["a"] 0 ⟨[], [], 0⟩ ⟨[], 0⟩ (by decide)).2.2.2.2.1

/-! ### Aggregator lemmas -/

theorem dictInsert_lookup_self (d : List (Nat × ℚ)) (k : Nat) (v : ℚ) :
    dictLookup (dictInsert d k v) k = some v := by
  induction d with
  | nil => simp [dictInsert, dictLookup]
  | cons p d ih =>
    by_cases hp : p.1 = k
    · simp [dictInsert, dictLookup, hp]
    · by_cases hd : d.any (fun q => q.1 = k)
      · have h1 : dictInsert (p :: d) k v = p :: dictInsert d k v := by
          simp [dictInsert, hp, hd]
        rw [h1]
        rw [dictLookup, List.find?_cons_of_neg _ (by simpa using hp)]
        rw [← dictLookup]
        exact ih
      · have h1 : dictInsert (p :: d) k v = p :: (d ++ [(k, v)]) := by
          simp [dictInsert, hp, hd]
        have h2 : dictInsert d k v = d ++ [(k, v)] := by
          simp [dictInsert, hd]
        rw [h1, dictLookup, List.find?_cons_of_neg _ (by simpa using hp), ← dictLookup,
          ← h2]
        exact ih

theorem find?_dictMap (k k2 : Nat) (v : ℚ) (h : k2 ≠ k) (d : List (Nat × ℚ)) :
    (d.map (fun p => if p.1 = k then (k, v) else p)).find? (fun p => p.1 = k2) =
      d.find? (fun p => p.1 = k2) := by
  induction d with
  | nil => rfl
  | cons p d ih =>
    by_cases hp : p.1 = k
    · rw [List.map_cons, if_pos hp]
      rw [List.find?_cons_of_neg _ (by simp [Ne.symm h]),
        List.find?_cons_of_neg _ (by simp [hp, Ne.symm h])]
      exact ih
    · rw [List.map_cons, if_neg hp]
      by_cases hp2 : p.1 = k2
      · rw [List.find?_cons_of_pos _ (by simpa using hp2),
          List.find?_cons_of_pos _ (by simpa using hp2)]
      · rw [List.find?_cons_of_neg _ (by simpa using hp2),
          List.find?_cons_of_neg _ (by simpa using hp2)]
        exact ih

theorem find?_append_single (k k2 : Nat) (v : ℚ) (h : k2 ≠ k) (d : List (Nat × ℚ)) :
    (d ++ [(k, v)]).find? (fun p => p.1 = k2) = d.find? (fun p => p.1 = k2) := by
  induction d with
  | nil =>
    simp only [List.nil_append, List.find?_nil]
    rw [List.find?_cons_of_neg _ (by simp [Ne.symm h]), List.find?_nil]
  | cons p d ih =>
    by_cases hp2 : p.1 = k2
    · simp only [List.cons_append]
      rw [List.find?_cons_of_pos _ (by simpa using hp2),
        List.find?_cons_of_pos _ (by simpa using hp2)]
    · simp only [List.cons_append]
      rw [List.find?_cons_of_neg _ (by simpa using hp2),
        List.find?_cons_of_neg _ (by simpa using hp2)]
      exact ih

theorem dictInsert_lookup_other (d : List (Nat × ℚ)) (k : Nat) (v : ℚ) (k2 : Nat)
    (h : k2 ≠ k) : dictLookup (dictInsert d k v) k2 = dictLookup d k2 := by
  unfold dictInsert dictLookup
  split_ifs with hd
  · rw [find?_dictMap k k2 v h d]
  · rw [find?_append_single k k2 v h d]

theorem dictLookup_drainQueue (k : Nat) (q : List (Nat × ℚ)) :
    ∀ d : List (Nat × ℚ),
      dictLookup (drainQueue d q) k =
        (q.reverse.find? (fun p => p.1 = k)).elim (dictLookup d k)
          (fun p => some p.2) := by
  induction q using List.reverseRecOn with
  | nil => intro d; simp [drainQueue]
  | append_singleton l p ih =>
    intro d
    rw [drainQueue, List.foldl_append, List.foldl_cons, List.foldl_nil,
      List.reverse_append, List.reverse_cons, List.reverse_nil, List.nil_append,
      List.singleton_append]
    by_cases hp : p.1 = k
    · rw [List.find?_cons_of_pos _ (by simpa using hp)]
      simp only [Option.elim]
      rw [← hp]
      exact dictInsert_lookup_self (drainQueue d l) p.1 p.2
    · rw [List.find?_cons_of_neg _ (by simpa using hp)]
      rw [show (List.foldl (fun acc p => dictInsert acc p.1 p.2) d l) = drainQueue d l
        from rfl]
      rw [dictInsert_lookup_other _ _ _ _ (Ne.symm hp)]
      exact ih d

/-- C7: draining moves all queued samples into the worker mapping with
last-write-wins per worker id; rendering yields the arithmetic mean of the
known fractions times 100 (`none` when no worker has reported yet); on the
samples (0, 0.5) and (1, 1.0) the rendered total is 75. -/
theorem c7_percent_queue (d : List (Nat × ℚ)) (q : List (Nat × ℚ)) (k : Nat)
    (v : ℚ) :
    dictLookup (dictInsert d k v) k = some v ∧
    dictLookup (drainQueue d q) k =
      (q.reverse.find? (fun p => p.1 = k)).elim (dictLookup d k)
        (fun p => some p.2) ∧
    renderTotal [] = none ∧
    renderTotal d =
      (if 0 < d.length then some ((d.map Prod.snd).sum / (d.length : ℚ) * 100)
       else none) ∧
    renderTotal (drainQueue [] [(0, 1/2), (1, 1)]) = some 75 := by
  refine ⟨dictInsert_lookup_self d k v, dictLookup_drainQueue k q d, rfl, ?_, ?_⟩
  · rw [renderTotal]
    split_ifs with hd
    · rw [List.sum_map_mul_right, div_mul_eq_mul_div]
    · rfl
  · have h1 : drainQueue [] [(0, 1/2), (1, 1)] = [(0, 1/2), (1, 1)] := by
      simp [drainQueue, dictInsert]
    rw [h1, renderTotal]
    norm_num

/-- C8: the two modes use distinct availability-log filenames for every
bucket (`B ++ ".available"` vs `"bucket_" ++ B ++ ".available"`), so
appending a key under the check-status filename never changes the file the
restore-request mode reads, and the request-mode availability diff is
unaffected by check-mode appends. -/
theorem c8_logfile_names (bucket : String) :
    requestAvailabilityLogfile bucket ≠ checkAvailabilityLogfile bucket ∧
    (∀ (store : FileStore) (entry : String),
      appendEntry store (checkAvailabilityLogfile bucket) entry
          (requestAvailabilityLogfile bucket) =
        store (requestAvailabilityLogfile bucket)) ∧
    (∀ (store : FileStore) (entry : String) (L : List Key),
      diff L (appendEntry store (checkAvailabilityLogfile bucket) entry
          (requestAvailabilityLogfile bucket)) =
        diff L (store (requestAvailabilityLogfile bucket))) := by
  have h7 : ("bucket_" : String).length = 7 := rfl
  have h10 : (".available" : String).length = 10 := rfl
  have hne : requestAvailabilityLogfile bucket ≠ checkAvailabilityLogfile bucket := by
    intro h
    have hlen := congrArg String.length h
    rw [requestAvailabilityLogfile, checkAvailabilityLogfile] at hlen
    rw [String.length_append, String.length_append, String.length_append,
      h7, h10] at hlen
    omega
  have happ : ∀ (store : FileStore) (entry : String),
      appendEntry store (checkAvailabilityLogfile bucket) entry
          (requestAvailabilityLogfile bucket) =
        store (requestAvailabilityLogfile bucket) := by
    intro store entry
    simp only [appendEntry]
    rw [if_neg hne]
  exact ⟨hne, happ, fun store entry L => congrArg (diff L) (happ store entry)⟩

/-- C9: chunking with a positive size yields only non-empty chunks, and
both orchestrators always compute a chunk size of at least 1
(`max(..., 1)`) whenever they reach the spawning phase, so every spawned
worker gets a non-empty `files` list and `counter / len(files)` never
divides by zero. -/
theorem c9_no_empty_chunks :
    (∀ (lst : List Key) (n : Nat), 1 ≤ n → ∀ c ∈ chunks lst n, 0 < c.length) ∧
    (∀ lines progressLog availabilityLog threadCount,
      (main_request_objects_restore lines progressLog availabilityLog
          threadCount).isEarlyExit = false →
        1 ≤ (main_request_objects_restore lines progressLog availabilityLog
          threadCount).planSplitBy) ∧
    (∀ fileList availabilityLog threadCount,
      1 ≤ (main_check_restore_status fileList availabilityLog
        threadCount).planSplitBy) := by
  refine ⟨?_, ?_, ?_⟩
  · intro lst n hn c hc
    have := chunks_mem_ne_nil n (by omega) lst c hc
    exact List.length_pos.mpr this
  · intro lines prog avail tc h
    by_cases hz : (requestRemaining lines prog avail).length = 0
    · exfalso
      simp [main_request_objects_restore, hz, RunAction.isEarlyExit] at h
    · simp only [main_request_objects_restore, hz, if_false, RunAction.planSplitBy]
      exact le_max_right _ 1
  · intro fl avail tc
    exact le_max_right _ 1

/-- Witness for C9: a 2-chunk of a 3-key list is non-empty, and both
orchestrators compute chunk size ≥ 1 on a concrete one-key input. -/
theorem c9_no_empty_chunks_witness :
    0 < (["a", "b"] : List Key).length ∧
    1 ≤ (main_request_objects_restore ["a"] [] [] 1).planSplitBy ∧
    1 ≤ (main_check_restore_status ["a"] [] 1).planSplitBy :=
  ⟨c9_no_empty_chunks.1 ["a", "b", "c"] 2 (by decide) ["a", "b"] (by simp [chunks]),
   c9_no_empty_chunks.2.1 ["a"] [] [] 1 (by decide),
   c9_no_empty_chunks.2.2 ["a"] [] 1⟩

/-! ### File round trip -/

theorem pythonLinesAux_append (rest : List Char) :
    ∀ (k : List Char), '\n' ∉ k → ∀ acc,
      pythonLinesAux acc (k ++ '\n' :: rest) =
        ((acc.reverse ++ k) ++ ['\n']) :: pythonLinesAux [] rest := by
  intro k
  induction k with
  | nil =>
    intro _ acc
    simp [pythonLinesAux]
  | cons c k ih =>
    intro hk acc
    have hc : ¬ c = '\n' := by
      intro h
      exact hk (by rw [h]; exact List.mem_cons_self '\n' k)
    simp only [List.cons_append, pythonLinesAux, if_neg hc, List.append_eq]
    rw [ih (fun hm => hk (List.mem_cons_of_mem c hm)) (c :: acc)]
    congr 2
    simp

theorem removeNewlines_line (k : List Char) (hk : '\n' ∉ k) :
    removeNewlines (k ++ ['\n']) = k := by
  rw [removeNewlines, List.filter_append]
  have h1 : List.filter (fun c => c ≠ '\n') ['\n'] = [] := by simp
  rw [h1, List.append_nil]
  apply List.filter_eq_self.mpr
  intro a ha
  have haa : a ≠ '\n' := fun h => hk (h ▸ ha)
  simpa using haa

/-- C10: writing keys one per line, each terminated by a newline (as the
list-generation output does), then reading the file back with `read_file`
returns exactly the original keys in order, provided no key contains a
newline; and `read_file` strips every newline from every line it returns. -/
theorem c10_write_read_round_trip :
    (∀ keys : List (List Char), (∀ k ∈ keys, '\n' ∉ k) →
      read_file (writeLines keys) = keys) ∧
    (∀ content : List Char, ∀ l ∈ read_file content, '\n' ∉ l) := by
  constructor
  · intro keys
    induction keys with
    | nil => intro _; rfl
    | cons k ks ih =>
      intro hk
      have hkk : '\n' ∉ k := hk k (List.mem_cons_self k ks)
      have hks : ∀ k2 ∈ ks, '\n' ∉ k2 := fun k2 hm => hk k2 (List.mem_cons_of_mem k hm)
      rw [read_file, writeLines, List.map_cons, List.flatten_cons]
      have hsplit : (k ++ ['\n']) ++ (ks.map (fun k2 => k2 ++ ['\n'])).flatten =
          k ++ '\n' :: (ks.map (fun k2 => k2 ++ ['\n'])).flatten := by
        simp
      rw [hsplit, pythonLines, pythonLinesAux_append _ k hkk []]
      rw [List.map_cons]
      rw [show (([] : List Char).reverse ++ k) = k by simp]
      rw [removeNewlines_line k hkk]
      exact congrArg (k :: ·) (ih hks)
  · intro content l hl
    rw [read_file] at hl
    obtain ⟨l2, hl2, rfl⟩ := List.mem_map.mp hl
    intro hmem
    rw [removeNewlines] at hmem
    have h2 := List.of_mem_filter hmem
    simp at h2

/-- Witness for C10 at the two-key list `[['a'], ['b', 'c']]`. -/
theorem c10_write_read_round_trip_witness :
    read_file (writeLines [['a'], ['b', 'c']]) = [['a'], ['b', 'c']] :=
  c10_write_read_round_trip.1 [['a'], ['b', 'c']] (by decide)

end S3Restore
